import Mathlib

/-!
Verification of the ai-gdpr scanning pipeline against its specification.

The Go sources are shallowly embedded: Go strings and byte slices are
modelled as `List Nat` (one entry per byte; all inputs relevant to the
claims are ASCII, where Go's rune iteration coincides with byte
iteration), `int64` values as `Int`, and `float64` confidence values as
`Rat` (the constants 0.5 and 0.8 are exactly representable).  External
library calls (the HTTP classifier, `encoding/json.Unmarshal`) are
abstracted at their interface and passed as explicit arguments.
-/

namespace AiGdpr

/-- Byte list of an ASCII string literal, used to write concrete inputs. -/
def bytes (s : String) : List Nat := s.toList.map Char.toNat

/-! ## Data model (internal/models/types.go) -/

/-- Embeds `models.Match`: detector output.  `Type` is the detector label
string (`models.FindingType` is a string type in the source). -/
structure MatchT where
  type : String
  value : List Nat
  snippet : List Nat
  offset : Int
deriving DecidableEq, Repr

/-- Embeds `models.Finding`: post-classification finding. -/
structure Finding where
  type : String
  snippet : List Nat
  confidence : Rat
  offset : Int
  context : List Nat
deriving DecidableEq, Repr

/-- Embeds the fields of `models.ScanResult` used by the reporter:
the findings list and whether the `Error` field is set. -/
structure ScanResultM where
  filePath : String
  findings : List Finding
  hasError : Bool
deriving DecidableEq, Repr

/-! ## Reporter (internal/reporting/reporter.go) -/

/-- Embeds `reporting.Summary` (the three counters updated by
`AddResult`; `int64` counters are modelled as `Nat` — they are only ever
incremented, starting from zero). -/
structure SummaryM where
  totalFilesScanned : Nat
  totalFilesWithPII : Nat
  totalPIIFound : Nat
deriving DecidableEq, Repr

/-- Embeds `reporting.Report`: summary plus the in-memory list of results
with findings (the `findings` array of the serialized report). -/
structure ReportM where
  summary : SummaryM
  findings : List ScanResultM
deriving DecidableEq, Repr

/-- Embeds `reporting.NewReport` (counter state only). -/
def newReport : ReportM := ⟨⟨0, 0, 0⟩, []⟩

/-- Embeds `Report.AddResult`: always increment `TotalFilesScanned`; when
the result has a non-empty findings list also increment
`TotalFilesWithPII`, add the findings count to `TotalPIIFound`, and
append the result to the in-memory list. -/
def addResult (r : ReportM) (res : ScanResultM) : ReportM :=
  let s := { r.summary with totalFilesScanned := r.summary.totalFilesScanned + 1 }
  if res.findings.length > 0 then
    { summary := { s with
        totalFilesWithPII := s.totalFilesWithPII + 1,
        totalPIIFound := s.totalPIIFound + res.findings.length },
      findings := r.findings ++ [res] }
  else
    { r with summary := s }

/-- A sequence of `AddResult` calls starting from a fresh report. -/
def addResults (rs : List ScanResultM) : ReportM := rs.foldl addResult newReport

lemma addResult_scanned (r : ReportM) (res : ScanResultM) :
    (addResult r res).summary.totalFilesScanned = r.summary.totalFilesScanned + 1 := by
  unfold addResult
  by_cases h : res.findings.length > 0 <;> simp [h]

lemma addResult_withPII (r : ReportM) (res : ScanResultM) :
    (addResult r res).summary.totalFilesWithPII
      = r.summary.totalFilesWithPII + (if res.findings.isEmpty then 0 else 1) := by
  unfold addResult
  by_cases h : res.findings.length > 0
  · have : res.findings.isEmpty = false := by
      cases hf : res.findings with
      | nil => simp [hf] at h
      | cons a l => simp
    simp [h, this]
  · have : res.findings.isEmpty = true := by
      cases hf : res.findings with
      | nil => simp
      | cons a l => simp [hf] at h
    simp [h, this]

lemma addResult_piiFound (r : ReportM) (res : ScanResultM) :
    (addResult r res).summary.totalPIIFound
      = r.summary.totalPIIFound + (if res.findings.isEmpty then 0 else res.findings.length) := by
  unfold addResult
  by_cases h : res.findings.length > 0
  · have : res.findings.isEmpty = false := by
      cases hf : res.findings with
      | nil => simp [hf] at h
      | cons a l => simp
    simp [h, this]
  · have : res.findings.isEmpty = true := by
      cases hf : res.findings with
      | nil => simp
      | cons a l => simp [hf] at h
    simp [h, this]

lemma addResult_findings (r : ReportM) (res : ScanResultM) :
    (addResult r res).findings
      = r.findings ++ (if res.findings.isEmpty then [] else [res]) := by
  unfold addResult
  by_cases h : res.findings.length > 0
  · have : res.findings.isEmpty = false := by
      cases hf : res.findings with
      | nil => simp [hf] at h
      | cons a l => simp
    simp [h, this]
  · have : res.findings.isEmpty = true := by
      cases hf : res.findings with
      | nil => simp
      | cons a l => simp [hf] at h
    simp [h, this]

/-- State of the three counters and the findings list after folding
`AddResult` over a result list, from an arbitrary starting report. -/
lemma addResults_invariant (rs : List ScanResultM) (r : ReportM) :
    (rs.foldl addResult r).summary.totalFilesScanned
        = r.summary.totalFilesScanned + rs.length
    ∧ (rs.foldl addResult r).summary.totalFilesWithPII
        = r.summary.totalFilesWithPII + (rs.filter (fun res => !res.findings.isEmpty)).length
    ∧ (rs.foldl addResult r).summary.totalPIIFound
        = r.summary.totalPIIFound
          + ((rs.filter (fun res => !res.findings.isEmpty)).map
              (fun res => res.findings.length)).sum
    ∧ (rs.foldl addResult r).findings
        = r.findings ++ rs.filter (fun res => !res.findings.isEmpty) := by
  induction rs generalizing r with
  | nil => simp
  | cons head tail ih =>
    obtain ⟨ih1, ih2, ih3, ih4⟩ := ih (addResult r head)
    rw [List.foldl_cons] at *
    refine ⟨?_, ?_, ?_, ?_⟩
    · rw [ih1, addResult_scanned]
      simp [Nat.add_assoc, Nat.add_comm 1]
    · rw [ih2, addResult_withPII, List.filter_cons]
      by_cases he : head.findings.isEmpty
      · simp [he]
      · simp only [Bool.not_eq_true] at he
        simp [he]
        omega
    · rw [ih3, addResult_piiFound, List.filter_cons]
      by_cases he : head.findings.isEmpty
      · simp [he]
      · simp only [Bool.not_eq_true] at he
        simp [he]
        omega
    · rw [ih4, addResult_findings, List.filter_cons]
      by_cases he : head.findings.isEmpty
      · simp [he]
      · simp only [Bool.not_eq_true] at he
        simp [he]

/-- Claim C7: after any sequence of `Report.AddResult` calls,
`total_files_with_pii ≤ total_files_scanned`, and `total_pii_found`
equals the sum of the findings-list lengths over the added results with a
non-empty findings list (results with empty findings increment only
`total_files_scanned`). -/
theorem report_counting_invariants (rs : List ScanResultM) :
    (addResults rs).summary.totalFilesWithPII ≤ (addResults rs).summary.totalFilesScanned
    ∧ (addResults rs).summary.totalPIIFound
        = ((rs.filter (fun res => !res.findings.isEmpty)).map
            (fun res => res.findings.length)).sum := by
  obtain ⟨h1, h2, h3, _⟩ := addResults_invariant rs newReport
  constructor
  · have hlen : (rs.filter (fun res => !res.findings.isEmpty)).length ≤ rs.length :=
      List.length_filter_le _ _
    unfold addResults
    rw [h1, h2]
    simp only [newReport]
    omega
  · unfold addResults
    rw [h3]
    simp [newReport]

/-- Claim C10: a result with an empty findings list — in particular every
result whose error field is set and which therefore carries no findings —
is counted in `total_files_scanned` but not appended to the report's
findings list, so the serialized findings array holds exactly the added
results with at least one finding, in order. -/
theorem report_findings_only_nonempty (rs : List ScanResultM) :
    (addResults rs).summary.totalFilesScanned = rs.length
    ∧ (addResults rs).findings = rs.filter (fun res => !res.findings.isEmpty) := by
  obtain ⟨h1, _, _, h4⟩ := addResults_invariant rs newReport
  constructor
  · unfold addResults
    rw [h1]
    simp [newReport]
  · unfold addResults
    rw [h4]
    simp [newReport]

/-! ## Byte sanitization (internal/extractor/text.go, sanitizeBytes) -/

/-- The per-byte keep condition of `sanitizeBytes`: printable ASCII
(32..126), tab, newline, carriage return, or high byte (> 127). -/
def keepByte (b : Nat) : Bool :=
  (decide (32 ≤ b) && decide (b ≤ 126)) || b == 9 || b == 10 || b == 13 || decide (127 < b)

/-- Embeds `sanitizeBytes`: kept bytes are copied, all others are
replaced by an ASCII space (32). -/
def sanitizeBytes (data : List Nat) : List Nat :=
  data.map (fun b => if keepByte b then b else 32)

/-- Claim C8: `sanitizeBytes` preserves the length of the buffer; at each
position the output byte equals the input byte iff the input byte is in
32..126, is 9, 10 or 13, or is greater than 127; and every input byte not
satisfying that condition is replaced by the ASCII space character 32. -/
theorem sanitize_length_and_pointwise (b : List Nat) :
    (sanitizeBytes b).length = b.length
    ∧ ∀ (i : Nat) (h1 : i < (sanitizeBytes b).length) (h2 : i < b.length),
        ((sanitizeBytes b).get ⟨i, h1⟩ = b.get ⟨i, h2⟩ ↔ keepByte (b.get ⟨i, h2⟩) = true)
        ∧ (keepByte (b.get ⟨i, h2⟩) = false → (sanitizeBytes b).get ⟨i, h1⟩ = 32) := by
  constructor
  · simp [sanitizeBytes]
  · intro i h1 h2
    have hmap : (sanitizeBytes b).get ⟨i, h1⟩
        = (if keepByte (b.get ⟨i, h2⟩) then b.get ⟨i, h2⟩ else 32) := by
      simp [sanitizeBytes, List.get_eq_getElem, List.getElem_map]
    constructor
    · constructor
      · intro hEq
        by_contra hk
        simp only [Bool.not_eq_true] at hk
        rw [hmap, hk] at hEq
        -- a dropped byte is < 32 (and not 9, 10 or 13) or equal to 127, never 32
        have h32 : b.get ⟨i, h2⟩ = 32 := by simpa using hEq.symm
        rw [h32] at hk
        exact absurd hk (by decide)
      · intro hk
        rw [hmap, if_pos hk]
    · intro hk
      rw [hmap, hk]
      simp

/-- Witness for C8 at the concrete buffer `[0, 65]` (a NUL byte, which is
dropped and spaced, and `A`). -/
theorem sanitize_length_and_pointwise_witness :
    (sanitizeBytes [0, 65]).length = ([0, 65] : List Nat).length
    ∧ (((sanitizeBytes [0, 65]).get ⟨0, by decide⟩ = ([0, 65] : List Nat).get ⟨0, by decide⟩
          ↔ keepByte (([0, 65] : List Nat).get ⟨0, by decide⟩) = true)
        ∧ (keepByte (([0, 65] : List Nat).get ⟨0, by decide⟩) = false →
            (sanitizeBytes [0, 65]).get ⟨0, by decide⟩ = 32)) :=
  ⟨(sanitize_length_and_pointwise [0, 65]).1,
   (sanitize_length_and_pointwise [0, 65]).2 0 (by decide) (by decide)⟩

/-! ## IBAN detector (internal/extractor/detectors/iban.go, detector.go) -/

/-- ASCII decimal digit, the byte-level reading of the source's
`r >= '0' && r <= '9'` tests (candidate values are ASCII). -/
def isDigitB (b : Nat) : Bool := decide (48 ≤ b) && decide (b ≤ 57)

/-- ASCII uppercase letter, the byte-level reading of `r >= 'A' && r <= 'Z'`. -/
def isUpperB (b : Nat) : Bool := decide (65 ≤ b) && decide (b ≤ 90)

/-- A byte allowed in the `[A-Z0-9]` class of the IBAN candidate regex. -/
def ibanCharOk (b : Nat) : Bool := isDigitB b || isUpperB b

/-- One step of `validateIBAN`'s numeric-string construction: a digit maps
to itself, a letter `A..Z` to the two decimal digits of its value
`10..35` (the source's `strconv.Itoa(int(r - 'A' + 10))`), anything else
fails. -/
def expandChar (b : Nat) : Option (List Nat) :=
  if isDigitB b then some [b]
  else if isUpperB b then some [(b - 55) / 10 + 48, (b - 55) % 10 + 48]
  else none

/-- The numeric-string construction loop of `validateIBAN`. -/
def expandAll : List Nat → Option (List Nat)
  | [] => some []
  | b :: rest =>
    match expandChar b, expandAll rest with
    | some e, some es => some (e ++ es)
    | _, _ => none

/-- Value of a decimal ASCII digit string, the source's
`big.Int.SetString(numericString, 10)` (Lean `Nat` is arbitrary
precision, as `big.Int` is). -/
def natOfDigits (ds : List Nat) : Nat := ds.foldl (fun acc d => acc * 10 + (d - 48)) 0

/-- Embeds `validateIBAN`: length 15..34, rotate the first four
characters to the end, expand letters to two-digit values, and check the
resulting decimal number is congruent to 1 modulo 97. -/
def validateIBAN (iban : List Nat) : Bool :=
  if iban.length < 15 ∨ 34 < iban.length then false
  else
    match expandAll (iban.drop 4 ++ iban.take 4) with
    | none => false
    | some ds => natOfDigits ds % 97 == 1

/-- The spec's description of the rotated numeric value: scan the rotated
string left to right, appending a digit's value or a letter's two-digit
value `10..35`.  Only meaningful when every byte is a digit or an
uppercase letter. -/
def letterStep (acc b : Nat) : Nat :=
  if isDigitB b then acc * 10 + (b - 48) else acc * 100 + (b - 55)

/-- The decimal integer the spec obtains from a candidate: move the first
four characters to the end, then read the letter-expanded decimal
string. -/
def ibanSpecNum (s : List Nat) : Nat := (s.drop 4 ++ s.take 4).foldl letterStep 0

/-- Structural reading of the IBAN candidate regex
`[A-Z]{2}\d{2}[A-Z0-9]{4,30}` as a whole-string predicate: two uppercase
letters, two digits, then 4 to 30 alphanumeric uppercase characters. -/
def ibanRegexMatch (s : List Nat) : Bool :=
  match s with
  | a :: b :: c :: d :: rest =>
    isUpperB a && isUpperB b && isDigitB c && isDigitB d &&
      decide (4 ≤ rest.length) && decide (rest.length ≤ 30) && rest.all ibanCharOk
  | _ => false

/-- Digit-expansion agrees with the spec-level fold, for any accumulator,
on strings of digits and uppercase letters. -/
lemma expand_fold (l : List Nat) (hok : ∀ b ∈ l, ibanCharOk b = true) (acc : Nat) :
    ∃ ds, expandAll l = some ds
      ∧ ds.foldl (fun a d => a * 10 + (d - 48)) acc = l.foldl letterStep acc := by
  induction l generalizing acc with
  | nil => exact ⟨[], rfl, rfl⟩
  | cons b rest ih =>
    have hb : ibanCharOk b = true := hok b (by simp)
    have hrest := fun acc' => ih (fun x hx => hok x (by simp [hx])) acc'
    by_cases hd : isDigitB b = true
    · obtain ⟨ds, hds, hfold⟩ := hrest (acc * 10 + (b - 48))
      refine ⟨b :: ds, ?_, ?_⟩
      · simp [expandAll, expandChar, hd, hds]
      · simpa [letterStep, hd] using hfold
    · have hu : isUpperB b = true := by
        simp only [ibanCharOk, Bool.or_eq_true] at hb
        tauto
      obtain ⟨ds, hds, hfold⟩ := hrest (acc * 100 + (b - 55))
      refine ⟨((b - 55) / 10 + 48) :: ((b - 55) % 10 + 48) :: ds, ?_, ?_⟩
      · simp [expandAll, expandChar, hd, hu, hds]
      · simp only [List.foldl_cons]
        have harith : (acc * 10 + ((b - 55) / 10 + 48 - 48)) * 10 + ((b - 55) % 10 + 48 - 48)
            = acc * 100 + (b - 55) := by
          have := Nat.div_add_mod (b - 55) 10
          omega
        rw [harith]
        simpa [letterStep, hd] using hfold

/-- On candidates made of digits and uppercase letters, `validateIBAN`
computes exactly the spec's MOD-97 condition. -/
lemma validateIBAN_iff_spec (s : List Nat) (hok : s.all ibanCharOk = true) :
    validateIBAN s = true ↔ (15 ≤ s.length ∧ s.length ≤ 34 ∧ ibanSpecNum s % 97 = 1) := by
  have hok2 : ∀ b ∈ s.drop 4 ++ s.take 4, ibanCharOk b = true := by
    intro b hb
    rcases List.mem_append.mp hb with h | h
    · exact List.all_eq_true.mp hok b (List.drop_subset _ _ h)
    · exact List.all_eq_true.mp hok b (List.take_subset _ _ h)
  obtain ⟨ds, hds, hfold⟩ := expand_fold _ hok2 0
  unfold validateIBAN
  by_cases hlen : s.length < 15 ∨ 34 < s.length
  · rw [if_pos hlen]
    simp only [Bool.false_eq_true, false_iff]
    omega
  · rw [if_neg hlen, hds]
    push_neg at hlen
    simp only [natOfDigits, beq_iff_eq, ibanSpecNum]
    rw [hfold]
    constructor
    · intro h; exact ⟨hlen.1, hlen.2, h⟩
    · intro h; exact h.2.2

/-- A string matching the IBAN candidate regex consists solely of digits
and uppercase letters. -/
lemma ibanRegexMatch_all_ok (s : List Nat) (h : ibanRegexMatch s = true) :
    s.all ibanCharOk = true := by
  match s, h with
  | a :: b :: c :: d :: rest, h =>
    simp only [ibanRegexMatch, Bool.and_eq_true, decide_eq_true_eq] at h
    obtain ⟨⟨⟨⟨⟨⟨ha, hb⟩, hc⟩, hd⟩, _⟩, _⟩, hrest⟩ := h
    simp only [List.all_cons, Bool.and_eq_true, ibanCharOk, Bool.or_eq_true]
    exact ⟨Or.inr ha, Or.inr hb, Or.inl hc, Or.inl hd, hrest⟩

/-- Fuel-bounded count of the leading run of `[A-Z0-9]` characters, the
greedy `{4,30}` quantifier of the candidate regex (fuel 30 caps the
run). -/
def alnumPrefixLen : List Nat → Nat → Nat
  | _, 0 => 0
  | [], _ + 1 => 0
  | x :: xs, fuel + 1 => if ibanCharOk x then alnumPrefixLen xs fuel + 1 else 0

/-- Longest match of the IBAN candidate regex anchored at the head of the
list (Go regexp is leftmost with a greedy final quantifier, so the
anchored match is the maximal munch). -/
def tryMatchIBAN : List Nat → Option Nat
  | a :: b :: c :: d :: rest =>
    if isUpperB a && isUpperB b && isDigitB c && isDigitB d then
      let k := alnumPrefixLen rest 30
      if 4 ≤ k then some (4 + k) else none
    else none
  | _ => none

/-- Fuel-bounded scan for all non-overlapping leftmost matches of the
IBAN candidate regex; mirrors `Regexp.FindAllStringIndex`.  Each match
consumes at least eight characters, so fuel equal to the content length
never runs out. -/
def ibanFindAllAux : Nat → List Nat → Nat → List (Nat × Nat)
  | 0, _, _ => []
  | _ + 1, [], _ => []
  | fuel + 1, x :: xs, pos =>
    match tryMatchIBAN (x :: xs) with
    | some len => (pos, pos + len) :: ibanFindAllAux fuel ((x :: xs).drop len) (pos + len)
    | none => ibanFindAllAux fuel xs (pos + 1)

/-- All matches of the IBAN candidate regex in a content string, as
(start, end) byte index pairs. -/
def ibanFindAll (content : List Nat) : List (Nat × Nat) :=
  ibanFindAllAux content.length content 0

/-- Embeds `BaseRegexDetector.Detect`: one `Match` per regex match, with
the matched span as value, the span widened by up to 20 bytes on each
side (clipped to the content) as snippet, and the start index as
offset. -/
def baseRegexDetect (findAll : List Nat → List (Nat × Nat)) (label : String)
    (content : List Nat) : List MatchT :=
  (findAll content).map (fun loc =>
    { type := label,
      value := (content.drop loc.1).take (loc.2 - loc.1),
      snippet := (content.drop (loc.1 - 20)).take (min (loc.2 + 20) content.length - (loc.1 - 20)),
      offset := (loc.1 : Int) })

/-- Embeds `IBANDetector.Detect`: regex candidates filtered by
`validateIBAN`. -/
def ibanDetect (content : List Nat) : List MatchT :=
  (baseRegexDetect ibanFindAll "IBAN" content).filter (fun m => validateIBAN m.value)

/-- Claim C1: a regex candidate is emitted by the IBAN detector iff the
MOD-97 validation succeeds: length 15..34, every character a digit or an
uppercase letter (guaranteed by the candidate regex), and the rotated
letter-expanded decimal number congruent to 1 modulo 97. -/
theorem iban_detect_iff_mod97 (content : List Nat) (m : MatchT)
    (hm : m ∈ baseRegexDetect ibanFindAll "IBAN" content)
    (hre : ibanRegexMatch m.value = true) :
    m ∈ ibanDetect content ↔
      (15 ≤ m.value.length ∧ m.value.length ≤ 34
        ∧ m.value.all ibanCharOk = true ∧ ibanSpecNum m.value % 97 = 1) := by
  have hok := ibanRegexMatch_all_ok m.value hre
  rw [ibanDetect, List.mem_filter]
  constructor
  · rintro ⟨-, hv⟩
    have := (validateIBAN_iff_spec m.value hok).mp hv
    exact ⟨this.1, this.2.1, hok, this.2.2⟩
  · rintro ⟨h1, h2, -, h3⟩
    exact ⟨hm, (validateIBAN_iff_spec m.value hok).mpr ⟨h1, h2, h3⟩⟩

/-- The valid German test IBAN, as bytes. -/
def ibanDE : List Nat := bytes "DE89370400440532013000"

/-- The match the base detector produces when the content is exactly the
test IBAN. -/
def mDE : MatchT := { type := "IBAN", value := ibanDE, snippet := ibanDE, offset := 0 }

/-- Witness for C1 at the concrete content `DE89370400440532013000`. -/
theorem iban_detect_iff_mod97_witness :
    mDE ∈ baseRegexDetect ibanFindAll "IBAN" ibanDE
    ∧ ibanRegexMatch mDE.value = true
    ∧ (mDE ∈ ibanDetect ibanDE ↔
        (15 ≤ mDE.value.length ∧ mDE.value.length ≤ 34
          ∧ mDE.value.all ibanCharOk = true ∧ ibanSpecNum mDE.value % 97 = 1)) :=
  ⟨by decide, by decide, iban_detect_iff_mod97 ibanDE mDE (by decide) (by decide)⟩

/-! ## Credit-card detector (internal/extractor/detectors/creditcard.go)

The broad candidate regex `\b(?:\d[ -]*?){13,19}\b` of the source is
abstracted at the detector boundary: the verification stage
(`CreditCardDetector.Detect` after `BaseRegexDetector.Detect`) is
embedded over an arbitrary candidate list, and candidate values are
constrained to the regex's character class (digits, spaces, hyphens) by
hypothesis. -/

/-- Embeds `cleanCC`: keep only digit characters (candidate values are
ASCII, where Go's `unicode.IsDigit` is exactly `0..9`). -/
def cleanCC (s : List Nat) : List Nat := s.filter isDigitB

/-- The source's doubling step: `n *= 2; if n > 9 { n = n%10 + 1 }`. -/
def luhnDouble (n : Nat) : Nat :=
  let m := n * 2
  if 9 < m then m % 10 + 1 else m

/-- The spec's doubling step: double, and subtract 9 if above 9. -/
def luhnSpecDouble (n : Nat) : Nat :=
  let m := n * 2
  if 9 < m then m - 9 else m

/-- The right-to-left Luhn accumulation of the source, expressed over the
reversed digit string; `alt` is the source's `alternate` flag. -/
def luhnSumAux : List Nat → Bool → Nat
  | [], _ => 0
  | d :: rest, alt =>
    (if alt then luhnDouble (d - 48) else d - 48) + luhnSumAux rest (!alt)

/-- Embeds `luhnCheck`: iterate from the last character leftwards,
starting with `alternate = false`, and accept iff the sum is divisible
by 10. -/
def luhnCheck (cc : List Nat) : Bool := luhnSumAux cc.reverse false % 10 == 0

/-- The spec's Luhn checksum (subtract-9 formulation) of a digit string,
right to left. -/
def luhnSpecSumAux : List Nat → Bool → Nat
  | [], _ => 0
  | d :: rest, alt =>
    (if alt then luhnSpecDouble (d - 48) else d - 48) + luhnSpecSumAux rest (!alt)

/-- The spec's Luhn checksum of a digit string. -/
def luhnSpecSum (cc : List Nat) : Nat := luhnSpecSumAux cc.reverse false

/-- Embeds the verification loop of `CreditCardDetector.Detect`: strip
non-digits, require 13..19 remaining digits, then the Luhn check. -/
def creditCardVerify (candidates : List MatchT) : List MatchT :=
  candidates.filter (fun m =>
    let clean := cleanCC m.value
    if clean.length < 13 ∨ 19 < clean.length then false else luhnCheck clean)

/-- On digit strings the source's `n%10 + 1` correction agrees with the
spec's `n - 9`. -/
lemma luhnSumAux_eq_spec (l : List Nat) :
    ∀ alt, (∀ d ∈ l, isDigitB d = true) → luhnSumAux l alt = luhnSpecSumAux l alt := by
  induction l with
  | nil => intro alt _; rfl
  | cons d rest ih =>
    intro alt hdig
    have hd : isDigitB d = true := hdig d (by simp)
    have hbounds : 48 ≤ d ∧ d ≤ 57 := by
      simpa [isDigitB] using hd
    have hstep : (if alt then luhnDouble (d - 48) else d - 48)
        = (if alt then luhnSpecDouble (d - 48) else d - 48) := by
      cases alt with
      | false => rfl
      | true =>
        simp only [if_pos]
        unfold luhnDouble luhnSpecDouble
        by_cases hm : 9 < (d - 48) * 2
        · rw [if_pos hm, if_pos hm]
          omega
        · rw [if_neg hm, if_neg hm]
    unfold luhnSumAux luhnSpecSumAux
    rw [hstep, ih (!alt) (fun x hx => hdig x (by simp [hx]))]

/-- Claim C2: a credit-card candidate is emitted by the detector iff,
after removing all non-digit characters, 13 to 19 digits remain and the
spec's Luhn checksum of the remaining digit string is 0 modulo 10.  The
hypothesis `hchars` records that a string matched by the candidate regex
consists of digits, spaces and hyphens. -/
theorem creditcard_detect_iff_luhn (candidates : List MatchT) (m : MatchT)
    (hm : m ∈ candidates)
    (_hchars : m.value.all (fun b => isDigitB b || b == 32 || b == 45) = true) :
    m ∈ creditCardVerify candidates ↔
      (13 ≤ (cleanCC m.value).length ∧ (cleanCC m.value).length ≤ 19
        ∧ luhnSpecSum (cleanCC m.value) % 10 = 0) := by
  have hdig : ∀ d ∈ (cleanCC m.value).reverse, isDigitB d = true := by
    intro d hd
    exact (List.mem_filter.mp (List.mem_reverse.mp hd)).2
  have hsum : luhnCheck (cleanCC m.value)
      = (luhnSpecSum (cleanCC m.value) % 10 == 0) := by
    unfold luhnCheck luhnSpecSum
    rw [luhnSumAux_eq_spec _ false hdig]
  rw [creditCardVerify, List.mem_filter]
  constructor
  · rintro ⟨-, hv⟩
    by_cases hrange : (cleanCC m.value).length < 13 ∨ 19 < (cleanCC m.value).length
    · rw [if_pos hrange] at hv
      exact absurd hv (by simp)
    · rw [if_neg hrange, hsum] at hv
      push_neg at hrange
      exact ⟨hrange.1, hrange.2, by simpa using hv⟩
  · rintro ⟨h1, h2, h3⟩
    refine ⟨hm, ?_⟩
    rw [if_neg (by omega), hsum]
    simpa using h3

/-- A Luhn-valid test card number, as bytes. -/
def ccVisa : List Nat := bytes "4111 1111 1111 1111"

/-- A candidate match carrying the test card number. -/
def mVisa : MatchT := { type := "CreditCard", value := ccVisa, snippet := ccVisa, offset := 0 }

/-- Witness for C2 at the concrete candidate `4111 1111 1111 1111`. -/
theorem creditcard_detect_iff_luhn_witness :
    mVisa ∈ [mVisa]
    ∧ mVisa.value.all (fun b => isDigitB b || b == 32 || b == 45) = true
    ∧ (mVisa ∈ creditCardVerify [mVisa] ↔
        (13 ≤ (cleanCC mVisa.value).length ∧ (cleanCC mVisa.value).length ≤ 19
          ∧ luhnSpecSum (cleanCC mVisa.value) % 10 = 0)) :=
  ⟨by decide, by decide, creditcard_detect_iff_luhn [mVisa] mVisa (by decide) (by decide)⟩

/-! ## Plain-text extractor (internal/extractor/text.go, TextScanner.Scan)

The reader is modelled as the list of byte chunks successive `Read`
calls return (each at most the 64 KiB buffer size; `io.Reader` may
return fewer bytes than the buffer holds), followed by EOF.  The
detector battery run by `runRegexChecks` is a parameter: the claims
about the scan loop are independent of which detectors run, and the
concrete instances below use the fully embedded IBAN detector. -/

/-- The scan loop's running state: accumulated matches, the overlap
window carried to the next chunk, and the count of bytes consumed so
far (the source's `offset`, an `int64`). -/
structure ScanState where
  results : List MatchT
  overlap : List Nat
  offset : Int
deriving DecidableEq, Repr

/-- The source's 256-byte overlap window size. -/
def overlapSize : Nat := 256

/-- Embeds `runRegexChecks`: run every detector on the chunk and shift
each reported offset by the chunk's base offset. -/
def runRegexChecks (dets : List (List Nat → List MatchT))
    (content : List Nat) (baseOffset : Int) : List MatchT :=
  dets.foldl (fun acc d =>
    acc ++ (d content).map (fun m => { m with offset := m.offset + baseOffset })) []

/-- Embeds one iteration of `TextScanner.Scan`'s read loop: prepend the
carried overlap, sanitize, scan with base offset
`offset - len(overlap)` (clamped at zero), extend the match list, and
carry the last `overlapSize` bytes (or the whole chunk, if shorter)
forward. -/
def scanStep (dets : List (List Nat → List MatchT)) (st : ScanState)
    (chunk : List Nat) : ScanState :=
  if chunk.length = 0 then st
  else
    let currentChunk := st.overlap ++ chunk
    let cleanChunk := sanitizeBytes currentChunk
    let chunkStartOffset : Int := max (st.offset - st.overlap.length) 0
    let found := runRegexChecks dets cleanChunk chunkStartOffset
    { results := st.results ++ found,
      overlap := if overlapSize ≤ chunk.length
                 then chunk.drop (chunk.length - overlapSize) else chunk,
      offset := st.offset + chunk.length }

/-- Embeds `TextScanner.Scan` over the list of chunks the reader
returns: fold the read loop from the empty state and return the
accumulated matches. -/
def textScan (dets : List (List Nat → List MatchT)) (reads : List (List Nat)) : List MatchT :=
  (reads.foldl (scanStep dets) ⟨[], [], 0⟩).results

/-- First read: a line whose IBAN occupies bytes 13..35 and so lies
wholly inside the overlap window carried to the second read. -/
def read1 : List Nat := bytes "Kontonummer: DE89370400440532013000"

/-- Second read: unrelated trailing bytes. -/
def read2 : List Nat := bytes " ok"

/-- Claim C3 (refuted, code bug): the scan loop re-scans the overlap
window and performs no deduplication, so the IBAN fully contained in the
overlap carried from the first chunk to the second is reported twice
under the spec's dedup key (detector-kind, absolute offset, value),
instead of exactly once. -/
theorem text_scan_overlap_duplicate :
    ((textScan [ibanDetect] [read1, read2]).filter
      (fun m => m.type == "IBAN" && m.offset == (13 : Int) && m.value == ibanDE)).length
      = 2 := by decide

/-! ## Whitelist (internal/whitelist/whitelist.go) -/

/-- ASCII whitespace, the byte-level reading of `strings.TrimSpace`
(space, tab, newline, vertical tab, form feed, carriage return). -/
def isSpaceB (b : Nat) : Bool :=
  b == 32 || b == 9 || b == 10 || b == 11 || b == 12 || b == 13

/-- Embeds `strings.TrimSpace` on ASCII byte strings. -/
def trimSpace (s : List Nat) : List Nat :=
  ((s.dropWhile isSpaceB).reverse.dropWhile isSpaceB).reverse

/-- Embeds `Whitelist.Contains`: trim the queried value and test set
membership.  The whitelist itself is the set of (already trimmed) loaded
entries, modelled as a list. -/
def wlContains (wl : List (List Nat)) (v : List Nat) : Bool := wl.contains (trimSpace v)

/-! ## Worker scan logic (Scanner.scanFile / Scanner.performAIAnalysis)

The classifier call `aiClient.AnalyzeFile` is abstracted by its result:
`Except.error ()` stands for any transport or API error, `Except.ok fs`
for a parsed finding list. -/

/-- Embeds `ai.FindingResult`: one classified finding returned by the
classifier client. -/
structure FindingResult where
  type : String
  value : List Nat
  reason : List Nat
  confidence : Rat
deriving DecidableEq, Repr

/-- The finding built from a raw detector match on the classifier-disabled
and classifier-error paths: confidence 0.5, no context, the match's
snippet and offset. -/
def fallbackFinding (m : MatchT) : Finding :=
  { type := m.type, snippet := m.snippet, confidence := mkRat 1 2,
    offset := m.offset, context := [] }

/-- The finding built from a classifier result on the successful path:
the classifier's value as snippet, its confidence, offset 0, and its
reason as context. -/
def aiFinding (f : FindingResult) : Finding :=
  { type := f.type, snippet := f.value, confidence := f.confidence,
    offset := 0, context := f.reason }

/-- Embeds the findings construction of `Scanner.scanFile` together with
`Scanner.performAIAnalysis`: no findings without matches; raw 0.5
fallback when the classifier is disabled; on a successful classifier
call, whitelist-filtered classifier findings; on a classifier error, the
same raw 0.5 fallback. -/
def scanFileFindings (disableAI : Bool) (ms : List MatchT)
    (aiResult : Except Unit (List FindingResult)) (wl : List (List Nat)) : List Finding :=
  if ms.length = 0 then []
  else if disableAI then ms.map fallbackFinding
  else
    match aiResult with
    | Except.ok fs => (fs.filter (fun f => !wlContains wl f.value)).map aiFinding
    | Except.error _ => ms.map fallbackFinding

/-- Claim C4: when the detector battery produced at least one match and
the classifier either returned an error or is disabled, every candidate
match is emitted as a finding with confidence exactly 0.5 and empty
context. -/
theorem classifier_fallback_half_confidence (disableAI : Bool) (ms : List MatchT)
    (aiResult : Except Unit (List FindingResult)) (wl : List (List Nat))
    (hne : ms ≠ [])
    (h : disableAI = true ∨ aiResult = Except.error ()) :
    scanFileFindings disableAI ms aiResult wl = ms.map fallbackFinding
    ∧ ∀ f ∈ scanFileFindings disableAI ms aiResult wl,
        f.confidence = mkRat 1 2 ∧ f.context = [] := by
  have hlen : ¬ ms.length = 0 := by simpa using hne
  have heq : scanFileFindings disableAI ms aiResult wl = ms.map fallbackFinding := by
    rcases h with h | h
    · simp [scanFileFindings, hlen, h]
    · cases disableAI <;> simp [scanFileFindings, hlen, h]
  refine ⟨heq, ?_⟩
  intro f hf
  rw [heq] at hf
  obtain ⟨m, -, rfl⟩ := List.mem_map.mp hf
  exact ⟨rfl, rfl⟩

/-- Witness for C4: one candidate match, classifier call failed. -/
theorem classifier_fallback_half_confidence_witness :
    scanFileFindings false [mDE] (Except.error ()) [] = [mDE].map fallbackFinding
    ∧ ∀ f ∈ scanFileFindings false [mDE] (Except.error ()) [],
        f.confidence = mkRat 1 2 ∧ f.context = [] :=
  classifier_fallback_half_confidence false [mDE] (Except.error ()) []
    (by decide) (Or.inr rfl)

/-- Claim C5 (refuted): the whitelist is consulted only on the successful
classifier path.  With the classifier disabled, a match whose snippet is
exactly a whitelisted value is still emitted as a finding. -/
theorem whitelist_bypassed_when_ai_disabled :
    wlContains [ibanDE] ibanDE = true
    ∧ ((scanFileFindings true [mDE] (Except.error ()) [ibanDE]).any
        (fun f => trimSpace f.snippet == ibanDE)) = true := by decide

/-- Claim C5 as amended: on the successful-classifier path, no emitted
finding carries a whitelisted value (the worker drops classifier
findings whose value is contained in the whitelist). -/
theorem whitelist_suppression_ai_path (ms : List MatchT) (fs : List FindingResult)
    (wl : List (List Nat)) (g : Finding)
    (hg : g ∈ scanFileFindings false ms (Except.ok fs) wl) :
    wlContains wl g.snippet = false := by
  unfold scanFileFindings at hg
  by_cases hlen : ms.length = 0
  · simp [hlen] at hg
  · simp only [hlen, if_false, if_neg, Bool.false_eq_true] at hg
    obtain ⟨f, hf, rfl⟩ := List.mem_map.mp hg
    have hkeep := (List.mem_filter.mp hf).2
    simpa [aiFinding] using hkeep

/-- A concrete classifier finding used by the C5 and C9 witnesses. -/
def frJohn : FindingResult :=
  { type := "Name", value := bytes "John Doe", reason := bytes "explicit name",
    confidence := mkRat 9 10 }

/-- Witness for the amended C5 at a concrete successful classification. -/
theorem whitelist_suppression_ai_path_witness :
    aiFinding frJohn ∈ scanFileFindings false [mDE] (Except.ok [frJohn]) []
    ∧ wlContains [] (aiFinding frJohn).snippet = false :=
  ⟨by decide,
   whitelist_suppression_ai_path [mDE] [frJohn] [] (aiFinding frJohn) (by decide)⟩

/-- Claim C9: every finding emitted on the successful-classifier path is
built from a classifier result: offset 0 and snippet equal to the
classifier's value string — the detector match's byte offset is not
propagated. -/
theorem ai_path_offset_zero_snippet_value (ms : List MatchT) (fs : List FindingResult)
    (wl : List (List Nat)) (g : Finding)
    (hg : g ∈ scanFileFindings false ms (Except.ok fs) wl) :
    g.offset = 0 ∧ ∃ f ∈ fs, g.snippet = f.value ∧ g = aiFinding f := by
  unfold scanFileFindings at hg
  by_cases hlen : ms.length = 0
  · simp [hlen] at hg
  · simp only [hlen, if_false, if_neg, Bool.false_eq_true] at hg
    obtain ⟨f, hf, rfl⟩ := List.mem_map.mp hg
    exact ⟨rfl, f, (List.mem_filter.mp hf).1, rfl, rfl⟩

/-- Witness for C9 at a concrete successful classification. -/
theorem ai_path_offset_zero_snippet_value_witness :
    aiFinding frJohn ∈ scanFileFindings false [mDE] (Except.ok [frJohn]) []
    ∧ (aiFinding frJohn).offset = 0
    ∧ ∃ f ∈ [frJohn], (aiFinding frJohn).snippet = f.value ∧ aiFinding frJohn = aiFinding f :=
  ⟨by decide,
   ai_path_offset_zero_snippet_value [mDE] [frJohn] [] (aiFinding frJohn) (by decide)⟩

/-! ## Classifier response parsing (OllamaClient.parseFindings)

`encoding/json.Unmarshal` is abstracted as a function from the bracketed
substring to `Option (List AiFinding)`: `none` stands for an unmarshal
error, `some fs` for a successful parse. -/

/-- Embeds the localized `AiFinding` struct `parseFindings` unmarshals
into; a missing JSON `confidence` field yields the zero value 0. -/
structure AiFinding where
  type : String
  value : List Nat
  reason : List Nat
  confidence : Rat
deriving DecidableEq, Repr

/-- The markdown fence `parseFindings` strips first, as bytes. -/
def fenceJson : List Nat := bytes "```json"

/-- The bare markdown fence, as bytes. -/
def fence : List Nat := bytes "```"

/-- Embeds `strings.TrimSuffix`: drop the suffix when present. -/
def trimSuffixL (s p : List Nat) : List Nat :=
  if p.isSuffixOf s then s.take (s.length - p.length) else s

/-- Embeds `cleanMarkdown`: trim, strip a leading three-backtick-json or
bare three-backtick fence, strip a trailing fence, trim again. -/
def cleanMarkdown (t : List Nat) : List Nat :=
  let t1 := trimSpace t
  let t2 := if fenceJson.isPrefixOf t1 then t1.drop fenceJson.length
            else if fence.isPrefixOf t1 then t1.drop fence.length
            else t1
  trimSpace (trimSuffixL t2 fence)

/-- Index of the first occurrence of a byte (`strings.Index`; `none` for
the source's -1). -/
def firstIdx : List Nat → Nat → Option Nat
  | [], _ => none
  | x :: xs, c => if x = c then some 0 else (firstIdx xs c).map (· + 1)

/-- Index of the last occurrence of a byte (`strings.LastIndex`). -/
def lastIdx (t : List Nat) (c : Nat) : Option Nat :=
  (firstIdx t.reverse c).map (fun i => t.length - 1 - i)

/-- The byte of the opening bracket. -/
def lbrack : Nat := 91

/-- The byte of the closing bracket. -/
def rbrack : Nat := 93

/-- The confidence substitution of `parseFindings`: a missing or zero
confidence becomes 0.8. -/
def substConfidence (f : AiFinding) : FindingResult :=
  { type := f.type, value := f.value, reason := f.reason,
    confidence := if f.confidence = 0 then mkRat 4 5 else f.confidence }

/-- The synthetic finding `parseFindings` returns when no bracketed span
is found: type Unknown, the raw response as value, a fixed reason, and
(the zero value) confidence 0. -/
def syntheticFinding (responseText : List Nat) : FindingResult :=
  { type := "Unknown", value := responseText,
    reason := bytes "AI returned non-JSON response", confidence := 0 }

/-- Outcome of a call to the Go `parseFindings`: a normal finding list,
a returned error, or a runtime panic (Go slice-bounds violation, which
nothing in the call chain recovers). -/
inductive ParseOutcome where
  | ok : List FindingResult → ParseOutcome
  | err : ParseOutcome
  | crash : ParseOutcome
deriving DecidableEq, Repr

/-- Embeds `OllamaClient.parseFindings`: strip markdown fences, locate
the substring from the first opening bracket to the last closing
bracket; without both brackets return the single synthetic finding.
With both, the source slices `cleanText[start : end+1]`, which panics
when the last `]` lies two or more bytes before the first `[`
(`start > end+1`); otherwise the span is unmarshalled — an unmarshal
error is returned as an error, and parsed findings get the 0.8
confidence substitution. -/
def parseFindings (responseText : List Nat)
    (unmarshal : List Nat → Option (List AiFinding)) : ParseOutcome :=
  match firstIdx (cleanMarkdown responseText) lbrack,
        lastIdx (cleanMarkdown responseText) rbrack with
  | some start, some stop =>
    if stop + 1 < start then ParseOutcome.crash
    else
      match unmarshal (((cleanMarkdown responseText).drop start).take (stop + 1 - start)) with
      | none => ParseOutcome.err
      | some fs => ParseOutcome.ok (fs.map substConfidence)
  | _, _ => ParseOutcome.ok [syntheticFinding responseText]

/-- An unmarshal oracle recording that Go's `json.Unmarshal` fails on the
span `[oops]` (`oops` is not valid JSON). -/
def unmarshalFails : List Nat → Option (List AiFinding) := fun _ => none

/-- Claim C6 (refuted): on the response `[oops]` — which cannot be parsed
as the expected JSON structure, but does contain brackets —
`parseFindings` returns an error, not the single synthetic
`Unknown` finding. -/
theorem parse_findings_error_not_synthetic :
    parseFindings (bytes "[oops]") unmarshalFails = ParseOutcome.err
    ∧ parseFindings (bytes "[oops]") unmarshalFails
        ≠ ParseOutcome.ok [syntheticFinding (bytes "[oops]")] := by
  refine ⟨rfl, ?_⟩
  intro h
  rw [show parseFindings (bytes "[oops]") unmarshalFails = ParseOutcome.err from rfl] at h
  exact ParseOutcome.noConfusion h

/-- Claim C6 as amended: the synthetic Unknown finding is returned
exactly when no bracketed span exists in the fence-stripped response.
When both brackets exist, the source panics if the last `]` lies two or
more bytes before the first `[`; otherwise a span that fails to
unmarshal yields an error return (handled upstream by the
0.5-confidence fallback), and parsed findings with missing or zero
confidence get 0.8 substituted. -/
theorem parse_findings_behavior (r : List Nat)
    (u : List Nat → Option (List AiFinding)) :
    ((firstIdx (cleanMarkdown r) lbrack = none ∨ lastIdx (cleanMarkdown r) rbrack = none) →
        parseFindings r u = ParseOutcome.ok [syntheticFinding r])
    ∧ (∀ start stop, firstIdx (cleanMarkdown r) lbrack = some start →
        lastIdx (cleanMarkdown r) rbrack = some stop →
        (stop + 1 < start → parseFindings r u = ParseOutcome.crash)
        ∧ (¬ stop + 1 < start →
            (u (((cleanMarkdown r).drop start).take (stop + 1 - start)) = none →
                parseFindings r u = ParseOutcome.err)
            ∧ (∀ fs, u (((cleanMarkdown r).drop start).take (stop + 1 - start)) = some fs →
                parseFindings r u = ParseOutcome.ok (fs.map substConfidence)))) := by
  constructor
  · intro h
    unfold parseFindings
    rcases h with h | h
    · rw [h]
    · rw [h]
      cases hfi : firstIdx (cleanMarkdown r) lbrack <;> rfl
  · intro start stop hf hl
    constructor
    · intro hlt
      unfold parseFindings
      rw [hf, hl]
      simp only [if_pos hlt]
    · intro hge
      constructor
      · intro hu
        unfold parseFindings
        rw [hf, hl]
        simp only [if_neg hge, hu]
      · intro fs hu
        unfold parseFindings
        rw [hf, hl]
        simp only [if_neg hge, hu]

/-- An unmarshal oracle for the witness: the span `[1]` parses to one
finding with no confidence field (zero value). -/
def unmarshalOne : List Nat → Option (List AiFinding) :=
  fun _ => some [{ type := "Name", value := bytes "John", reason := bytes "r", confidence := 0 }]

/-- Witness for the amended C6: a bracket-free response yields the
synthetic finding; the response whose last `]` precedes its first `[`
panics; a parsed finding with zero confidence gets 0.8. -/
theorem parse_findings_behavior_witness :
    parseFindings (bytes "no json here") unmarshalFails
        = ParseOutcome.ok [syntheticFinding (bytes "no json here")]
    ∧ parseFindings (bytes "]x[") unmarshalFails = ParseOutcome.crash
    ∧ parseFindings (bytes "[1]") unmarshalOne
        = ParseOutcome.ok ([{ type := "Name", value := bytes "John", reason := bytes "r",
                              confidence := 0 }].map substConfidence) :=
  ⟨(parse_findings_behavior (bytes "no json here") unmarshalFails).1 (Or.inl (by decide)),
   ((parse_findings_behavior (bytes "]x[") unmarshalFails).2 2 0
      (by decide) (by decide)).1 (by decide),
   (((parse_findings_behavior (bytes "[1]") unmarshalOne).2 0 2
      (by decide) (by decide)).2 (by decide)).2 _ rfl⟩

end AiGdpr
